import Mathlib

/-!
Shallow embedding of `src/s3tests/realistic.py` (module `s3tests.realistic`).

The Python module builds deterministic pseudorandom "file-like" streams
(`RandomContentFile`), replays materialized streams (`PrecomputedContentFile`)
and verifies round-tripped data (`FileVerifier`).

Modelling conventions:
* Byte strings become `List Nat` (each entry is one byte value).
* The Python stdlib collaborators are abstracted as parameters:
  `rng seed i` is the value of the `i`-th `random.Random(seed).getrandbits(64)`
  draw after (re-)seeding with `seed`, and `md5 l` is the 16-byte MD5 digest of
  the byte string `l` (`hashlib.md5` fed with `l`; determinism and the fixed
  16-byte digest size are the only properties used).
* A running `hashlib.md5()` object is represented by the list of bytes fed to
  it so far (`hashedBytes`) plus a liveness flag (`hashAlive`, false once the
  source sets `self.hash = None`).  `hash.digest()` is `md5 hashedBytes`; per
  the hashlib contract `digest()` is a snapshot and does not finalize the
  object.
* Wall-clock instants (`time.time()`) are passed in explicitly as `now : Nat`;
  a chunk record `[offset, elapsed]` becomes the pair `(offset, now - start)`.
  Chunk records are instrumentation only and never influence the bytes.
-/

namespace Realistic

/-- Digest size in bytes: `hashlib.md5().digest_size` is 16. -/
def digestSize : Nat := 16

/-- Layout of one word under `struct.pack` with format Q: a 64-bit word as 8 bytes
(native little-endian order on the platforms the suite runs on). -/
def packQ (w : Nat) : List Nat :=
  [w % 256, w / 256 % 256, w / 256 ^ 2 % 256, w / 256 ^ 3 % 256,
   w / 256 ^ 4 % 256, w / 256 ^ 5 % 256, w / 256 ^ 6 % 256, w / 256 ^ 7 % 256]

section Source

variable (rng : Nat → Nat → Nat) (md5 : List Nat → List Nat)

/-- Byte `i` of the logical pseudorandom byte sequence for `seed`: byte
`i % 8` of the `i / 8`-th 64-bit draw. -/
def byteAt (seed i : Nat) : Nat :=
  rng seed (i / 8) / 256 ^ (i % 8) % 256

/-- First `n` bytes of the logical pseudorandom byte sequence for `seed`. -/
def byteSeq (seed n : Nat) : List Nat :=
  (List.range n).map (byteAt rng seed)

/-- Number of 64-bit words drawn by one `RandomContentFile._generate` call:
`chunks = int(math.ceil(min(self.size, 1*1024*1024)/8.0))`. -/
def genWords (size : Nat) : Nat :=
  (min size (1024 * 1024) + 7) / 8

/-- `RandomContentFile._generate`: draw `genWords size` words from the seeded
generator (the next draw index being `cnt`) and pack them into bytes. -/
def generate (seed size cnt : Nat) : List Nat :=
  ((List.range (genWords size)).map (fun i => packQ (rng seed (cnt + i)))).flatten

/-- The `while len(self.buffer) < random_count: self.buffer += self._generate()`
loop of `RandomContentFile.read`, with an explicit iteration budget `fuel`.
Each iteration appends one `_generate` block and advances the draw index.
When `genWords size = 0` the Python loop would never terminate (that case is
unreachable from `read`, which only enters the loop when `size > digestSize`);
here the budget simply runs out and the buffer is returned unchanged. -/
def fillGo (seed size needed : Nat) : Nat → Nat → List Nat → Nat × List Nat
  | 0, cnt, buf => (cnt, buf)
  | fuel + 1, cnt, buf =>
    if buf.length < needed then
      fillGo seed size needed fuel (cnt + genWords size) (buf ++ generate rng seed size cnt)
    else (cnt, buf)

/-- Run the buffer-fill loop to completion: `needed + 1` iterations always
suffice because every iteration of the source loop appends
`8 * genWords size ≥ 8` bytes whenever the loop can make progress. -/
def fillBuffer (seed size needed cnt : Nat) (buf : List Nat) : Nat × List Nat :=
  fillGo rng seed size needed (needed + 1) cnt buf

end Source

/-- State of a `RandomContentFile` (after `__init__` has completed).
`rngCnt` counts the 64-bit draws made since the generator was last seeded;
`hashedBytes`/`hashAlive` represent `self.hash` and `digest` represents
`self.digest` as described in the module docstring above. -/
structure RCF where
  size : Nat
  seed : Nat
  rngCnt : Nat
  offset : Nat
  buffer : List Nat
  hashedBytes : List Nat
  hashAlive : Bool
  digest : Option (List Nat)
  lastChunks : Option (List (Nat × Nat))
  lastSeek : Nat
  chunks : List (Nat × Nat)

/-- `RandomContentFile.__init__(size, seed)` at wall-clock instant `now`:
stores `size` and `seed`, seeds the generator, then runs `seek(0)`, which at
that point copies the still-`None` chunk list into `last_chunks`. -/
def RCF.init (size seed now : Nat) : RCF :=
  { size := size, seed := seed, rngCnt := 0, offset := 0, buffer := [],
    hashedBytes := [], hashAlive := true, digest := none,
    lastChunks := none, lastSeek := now, chunks := [] }

/-- `RandomContentFile.seek(offset)` at instant `now`.  The source starts with
`assert offset == 0`; a failing assertion is modelled as `none`.  On success it
re-seeds the generator, clears the leftover buffer, re-creates the md5
accumulator, drops the materialized digest, rotates `chunks` into
`last_chunks`, resets the chunk clock and empties `chunks`. -/
def RCF.seek (s : RCF) (offset : Int) (now : Nat) : Option RCF :=
  if offset = 0 then
    some { s with rngCnt := 0, offset := 0, buffer := [],
                  hashedBytes := [], hashAlive := true, digest := none,
                  lastChunks := some s.chunks, lastSeek := now, chunks := [] }
  else none

/-- `RandomContentFile.tell()`. -/
def RCF.tell (s : RCF) : Nat := s.offset

section Source

variable (rng : Nat → Nat → Nat) (md5 : List Nat → List Nat)

/-- First block of `RandomContentFile.read`: the pseudorandom payload part.
`random_count = min(size, self.size - self.offset - self.digest_size)`; when
positive, fill the leftover buffer, emit `random_count` bytes from it, feed
them to the hash if it is still alive, and advance `offset`.  Returns the
emitted bytes, the remaining requested size and the updated state. -/
def readPayload (s : RCF) (size1 : Int) : List Nat × Int × RCF :=
  let randomCount : Int := min size1 ((s.size : Int) - (s.offset : Int) - (digestSize : Int))
  if 0 < randomCount then
    let rc := randomCount.toNat
    let fb := fillBuffer rng s.seed s.size rc s.rngCnt s.buffer
    let data := fb.2.take rc
    (data, size1 - randomCount,
      { s with rngCnt := fb.1,
               offset := s.offset + rc,
               buffer := fb.2.drop rc,
               hashedBytes := if s.hashAlive then s.hashedBytes ++ data else s.hashedBytes })
  else ([], size1, s)

/-- Second block of `RandomContentFile.read`: the digest-trailer part.
`digest_count = min(size, self.size - self.offset)`; when positive, first
materialize `self.digest = self.hash.digest()` (setting `self.hash = None`) if
not yet done, advance `offset`, and emit `self.digest[:digest_count]` — note
the slice always starts at the beginning of the digest.  (In every state
reachable through the API, `digest = none` implies `hashAlive = true`, so
`md5 s.hashedBytes` is exactly `self.hash.digest()`.) -/
def readTrailer (s : RCF) (size2 : Int) : List Nat × RCF :=
  let digestCount : Int := min size2 ((s.size : Int) - (s.offset : Int))
  if 0 < digestCount then
    let dg := match s.digest with
      | none => md5 s.hashedBytes
      | some d => d
    let alive := match s.digest with
      | none => false
      | some _ => s.hashAlive
    (dg.take digestCount.toNat,
      { s with digest := some dg, hashAlive := alive,
               offset := s.offset + digestCount.toNat })
  else ([], s)

/-- `RandomContentFile.read(size)` at instant `now`.  A negative request means
"the rest of the declared size"; afterwards a chunk record
`[self.offset, elapsed_ns]` is always appended, even for empty reads. -/
def RCF.read (s : RCF) (size0 : Int) (now : Nat) : List Nat × RCF :=
  let size1 : Int := if size0 < 0 then (s.size : Int) - (s.offset : Int) else size0
  let p := readPayload rng s size1
  let t := readTrailer md5 p.2.2 p.2.1
  (p.1 ++ t.1,
    { t.2 with chunks := t.2.chunks ++ [(t.2.offset, now - t.2.lastSeek)] })

/-- Run a sequence of `read` calls; each list entry is the requested size and
the wall-clock instant of the call.  Returns the concatenated output and the
final state. -/
def runReads (s : RCF) : List (Int × Nat) → List Nat × RCF
  | [] => ([], s)
  | c :: cs =>
    let o := RCF.read rng md5 s c.1 c.2
    let r := runReads o.2 cs
    (o.1 ++ r.1, r.2)

/-- The full byte sequence a fresh `RandomContentFile(size, seed)` emits:
`size - 16` pseudorandom payload bytes followed by the md5 digest of those
payload bytes, truncated to the declared `size` (for `size < 16` the stream is
a prefix of the digest of the empty payload). -/
def content (seed size : Nat) : List Nat :=
  (byteSeq rng seed (size - digestSize) ++ md5 (byteSeq rng seed (size - digestSize))).take size

end Source

/-- The generation-relevant fields of a `RandomContentFile` state: everything
except the chunk-record instrumentation (`lastChunks`, `lastSeek`, `chunks`). -/
def RCF.core (s : RCF) :
    Nat × Nat × Nat × Nat × List Nat × List Nat × Bool × Option (List Nat) :=
  (s.size, s.seed, s.rngCnt, s.offset, s.buffer, s.hashedBytes, s.hashAlive, s.digest)

/-- State of a `PrecomputedContentFile`: the materialized byte sequence held by
the spooled temporary file, the file cursor, and the chunk bookkeeping. -/
structure PCF where
  data : List Nat
  filePos : Nat
  lastChunks : Option (List (Nat × Nat))
  lastSeek : Nat
  chunks : List (Nat × Nat)

/-- `PrecomputedContentFile.__init__(f)` at instant `now`, with `contents` the
bytes copied out of `f`: the trailing `self.seek(0)` positions the cursor at 0
and rotates the still-`None` chunk list into `last_chunks`. -/
def PCF.init (contents : List Nat) (now : Nat) : PCF :=
  { data := contents, filePos := 0, lastChunks := none, lastSeek := now, chunks := [] }

/-- `PrecomputedContentFile.seek(offset)` at instant `now`: always repositions
the underlying file cursor; only when `offset == 0` does it rotate `chunks`
into `last_chunks`, reset the chunk clock and empty `chunks`. -/
def PCF.seek (p : PCF) (offset now : Nat) : PCF :=
  let p1 := { p with filePos := offset }
  if offset = 0 then
    { p1 with lastChunks := some p1.chunks, lastSeek := now, chunks := [] }
  else p1

/-- `PrecomputedContentFile.tell()`. -/
def PCF.tell (p : PCF) : Nat := p.filePos

/-- `PrecomputedContentFile.read(size)` at instant `now`: the underlying
file read (negative size means "the rest"), then `_mark_chunk`. -/
def PCF.read (p : PCF) (size0 : Int) (now : Nat) : List Nat × PCF :=
  let n : Nat := if size0 < 0 then p.data.length - p.filePos else size0.toNat
  let out := (p.data.drop p.filePos).take n
  let p1 := { p with filePos := p.filePos + out.length }
  (out, { p1 with chunks := p1.chunks ++ [(p1.filePos, now - p1.lastSeek)] })

/-- State of a `FileVerifier`: total byte count, the bytes fed to the running
md5 (`self.hash`), the trailing buffer (`self.buf`), the construction instant
and the chunk records. -/
structure FV where
  size : Nat
  hashedBytes : List Nat
  buf : List Nat
  createdAt : Nat
  chunks : List (Nat × Nat)

/-- `FileVerifier.__init__()` at instant `now`. -/
def FV.init (now : Nat) : FV :=
  { size := 0, hashedBytes := [], buf := [], createdAt := now, chunks := [] }

/-- `FileVerifier.write(data)` at instant `now`: extend `size` and the buffer,
then split the buffer as `buf[0:-16]` (fed to the running hash) and `buf[-16:]`
(the new trailing buffer), and append a chunk record. -/
def FV.write (v : FV) (data : List Nat) (now : Nat) : FV :=
  let size := v.size + data.length
  let b := v.buf ++ data
  let newData := b.take (b.length - digestSize)
  { size := size,
    hashedBytes := v.hashedBytes ++ newData,
    buf := b.drop (b.length - digestSize),
    createdAt := v.createdAt,
    chunks := v.chunks ++ [(size, now - v.createdAt)] }

section Source

variable (md5 : List Nat → List Nat)

/-- `FileVerifier.valid()`: for short streams, whether the digest so far starts
with the trailing buffer; otherwise whether the trailing buffer equals the
digest.  The call only inspects state: the hashlib `digest()` call is a snapshot
that does not finalize the running hash, so the verifier is returned unchanged
as the second component. -/
def FV.valid (v : FV) : Bool × FV :=
  (if v.size < digestSize then v.buf.isPrefixOf (md5 v.hashedBytes)
   else v.buf == md5 v.hashedBytes, v)

/-- Run a sequence of `write` calls; each entry is the data chunk and the
wall-clock instant of the call. -/
def runWrites (v : FV) : List (List Nat × Nat) → FV
  | [] => v
  | w :: ws => runWrites (v.write w.1 w.2) ws

end Source

/-- Concrete stand-in for the seeded 64-bit generator, used to evaluate the
development on concrete inputs. -/
def rngC : Nat → Nat → Nat :=
  fun seed i => seed * 1000003 + i * 97 + 5

/-- Concrete stand-in for a 16-byte digest function, used to evaluate the
development on concrete inputs: 16 bytes depending on the sum and
length. -/
def mdC : List Nat → List Nat :=
  fun l => (List.range digestSize).map (fun i => (i * 31 + l.sum + 7 * l.length) % 256)

end Realistic

namespace Realistic

section Lemmas

variable (rng : Nat → Nat → Nat) (md5 : List Nat → List Nat)

theorem packQ_length (w : Nat) : (packQ w).length = 8 := rfl

theorem byteSeq_length (seed n : Nat) : (byteSeq rng seed n).length = n := by
  simp [byteSeq]

theorem byteSeq_take (seed n m : Nat) :
    (byteSeq rng seed n).take m = byteSeq rng seed (min m n) := by
  simp [byteSeq, ← List.map_take, List.take_range]

theorem byteAt_block (seed n j : Nat) (hj : j < 8) :
    byteAt rng seed (8 * n + j) = rng seed n / 256 ^ j % 256 := by
  unfold byteAt
  rw [show (8 * n + j) / 8 = n by omega, show (8 * n + j) % 8 = j by omega]

theorem packQ_eq (seed n : Nat) :
    packQ (rng seed n) = (List.range 8).map (fun j => byteAt rng seed (8 * n + j)) := by
  have h8 : List.range 8 = [0, 1, 2, 3, 4, 5, 6, 7] := by decide
  rw [h8]
  simp only [List.map_cons, List.map_nil, packQ]
  rw [byteAt_block rng seed n 0 (by omega), byteAt_block rng seed n 1 (by omega),
      byteAt_block rng seed n 2 (by omega), byteAt_block rng seed n 3 (by omega),
      byteAt_block rng seed n 4 (by omega), byteAt_block rng seed n 5 (by omega),
      byteAt_block rng seed n 6 (by omega), byteAt_block rng seed n 7 (by omega)]
  norm_num

theorem flatten_blocks (seed : Nat) : ∀ (m cnt : Nat),
    ((List.range m).map (fun i => packQ (rng seed (cnt + i)))).flatten
      = (List.range (8 * m)).map (fun j => byteAt rng seed (8 * cnt + j))
  | 0, cnt => by simp
  | m + 1, cnt => by
    rw [List.range_succ, List.map_append, List.flatten_append,
        flatten_blocks seed m cnt]
    have h : 8 * (m + 1) = 8 * m + 8 := by ring
    rw [h, List.range_add, List.map_append, List.map_map]
    congr 1
    simp only [List.map_cons, List.map_nil, List.flatten_cons, List.flatten_nil,
      List.append_nil]
    rw [packQ_eq rng seed (cnt + m)]
    apply List.map_congr_left
    intro j hj
    simp only [Function.comp]
    congr 1
    ring

theorem generate_eq (seed size cnt : Nat) :
    generate rng seed size cnt
      = (List.range (8 * genWords size)).map (fun j => byteAt rng seed (8 * cnt + j)) := by
  unfold generate
  exact flatten_blocks rng seed (genWords size) cnt

theorem generate_length (seed size cnt : Nat) :
    (generate rng seed size cnt).length = 8 * genWords size := by
  rw [generate_eq]; simp

theorem byteSeq_append_generate (seed size cnt : Nat) :
    byteSeq rng seed (8 * cnt) ++ generate rng seed size cnt
      = byteSeq rng seed (8 * (cnt + genWords size)) := by
  rw [show 8 * (cnt + genWords size) = 8 * cnt + 8 * genWords size by ring]
  unfold byteSeq
  rw [List.range_add, List.map_append, List.map_map, generate_eq]
  congr 1

theorem fillGo_spec (seed size : Nat) (hgw : 0 < genWords size) (needed : Nat) :
    ∀ (fuel cnt pc : Nat) (buf : List Nat), pc ≤ 8 * cnt →
      needed ≤ buf.length + 8 * fuel →
      buf = (byteSeq rng seed (8 * cnt)).drop pc →
      ∃ cnt', cnt ≤ cnt' ∧ pc ≤ 8 * cnt' ∧ needed + pc ≤ 8 * cnt' ∧
        fillGo rng seed size needed fuel cnt buf
          = (cnt', (byteSeq rng seed (8 * cnt')).drop pc)
  | 0, cnt, pc, buf, hpc, hfuel, hbuf => by
    refine ⟨cnt, le_refl cnt, hpc, ?_, ?_⟩
    · have hlen : buf.length = 8 * cnt - pc := by
        rw [hbuf, List.length_drop, byteSeq_length]
      omega
    · rw [fillGo, hbuf]
  | fuel + 1, cnt, pc, buf, hpc, hfuel, hbuf => by
    rw [fillGo]
    by_cases hlt : buf.length < needed
    · rw [if_pos hlt]
      have hlen : buf.length = 8 * cnt - pc := by
        rw [hbuf, List.length_drop, byteSeq_length]
      have hbuf' : buf ++ generate rng seed size cnt
          = (byteSeq rng seed (8 * (cnt + genWords size))).drop pc := by
        rw [hbuf, ← byteSeq_append_generate rng seed size cnt,
          List.drop_append_of_le_length (by rw [byteSeq_length]; exact hpc)]
      have hpc' : pc ≤ 8 * (cnt + genWords size) := by omega
      have hfuel' : needed ≤ (buf ++ generate rng seed size cnt).length + 8 * fuel := by
        rw [List.length_append, generate_length]
        omega
      obtain ⟨cnt', h1, h2, h3, h4⟩ :=
        fillGo_spec seed size hgw needed fuel (cnt + genWords size) pc
          (buf ++ generate rng seed size cnt) hpc' hfuel' hbuf'
      exact ⟨cnt', by omega, h2, h3, h4⟩
    · rw [if_neg hlt]
      have hlen : buf.length = 8 * cnt - pc := by
        rw [hbuf, List.length_drop, byteSeq_length]
      exact ⟨cnt, le_refl cnt, hpc, by omega, by rw [hbuf]⟩

theorem fillBuffer_spec (seed size : Nat) (hgw : 0 < genWords size)
    (needed cnt pc : Nat) (buf : List Nat) (hpc : pc ≤ 8 * cnt)
    (hbuf : buf = (byteSeq rng seed (8 * cnt)).drop pc) :
    ∃ cnt', cnt ≤ cnt' ∧ pc ≤ 8 * cnt' ∧ needed + pc ≤ 8 * cnt' ∧
      fillBuffer rng seed size needed cnt buf
        = (cnt', (byteSeq rng seed (8 * cnt')).drop pc) :=
  fillGo_spec rng seed size hgw needed (needed + 1) cnt pc buf hpc (by omega) hbuf

theorem byteSeq_zero (seed : Nat) : byteSeq rng seed 0 = [] := rfl

theorem read_all_spec (hmd5 : ∀ l, (md5 l).length = digestSize)
    (size seed now : Nat) (s : RCF)
    (h1 : s.size = size) (h2 : s.seed = seed) (h3 : s.rngCnt = 0) (h4 : s.offset = 0)
    (h5 : s.buffer = []) (h6 : s.hashedBytes = []) (h7 : s.hashAlive = true)
    (h8 : s.digest = none) :
    (RCF.read rng md5 s (-1) now).1 = content rng md5 seed size := by
  have hds16 : digestSize = 16 := rfl
  by_cases hbig : 17 ≤ size
  · -- the payload part is nonempty
    have hgw : 0 < genWords size := by unfold genWords; omega
    obtain ⟨cnt', hc1, hc2, hc3, hfb⟩ :=
      fillBuffer_spec rng seed size hgw (size - 16) 0 0 [] (by omega)
        (by rw [Nat.mul_zero, byteSeq_zero]; rfl)
    have hpay : readPayload rng s ((size : Int))
        = (byteSeq rng seed (size - 16), 16,
           { s with rngCnt := cnt',
                    offset := size - 16,
                    buffer := (byteSeq rng seed (8 * cnt')).drop (size - 16),
                    hashedBytes := byteSeq rng seed (size - 16) }) := by
      rw [readPayload]
      simp only [h1, h2, h3, h4, h5, h6, h7, Nat.cast_zero, sub_zero]
      have hmin : ((size : Int)) ⊓ ((size : Int) - (digestSize : Int)) = (size : Int) - 16 := by
        rw [show ((digestSize : Int)) = 16 from rfl]
        omega
      rw [hmin, if_pos (by omega : (0 : Int) < (size : Int) - 16)]
      have htn : ((size : Int) - 16).toNat = size - 16 := by omega
      rw [htn, hfb]
      simp only [List.drop_zero, if_true, List.nil_append, Nat.zero_add]
      have htake : (byteSeq rng seed (8 * cnt')).take (size - 16) = byteSeq rng seed (size - 16) := by
        rw [byteSeq_take]
        congr 1
        omega
      rw [htake]
      congr 1
      congr 1
      omega
    have htrail1 : (readTrailer md5
        { s with rngCnt := cnt', offset := size - 16,
                 buffer := (byteSeq rng seed (8 * cnt')).drop (size - 16),
                 hashedBytes := byteSeq rng seed (size - 16) } (16 : Int)).1
        = md5 (byteSeq rng seed (size - 16)) := by
      rw [readTrailer]
      simp only [h1, h8]
      have hmin2 : (16 : Int) ⊓ ((size : Int) - ((size - 16 : Nat) : Int)) = 16 := by omega
      rw [hmin2, if_pos (by norm_num : (0 : Int) < 16)]
      simp only []
      exact List.take_of_length_le (by rw [hmd5]; decide)
    have hcontent : content rng md5 seed size
        = byteSeq rng seed (size - 16) ++ md5 (byteSeq rng seed (size - 16)) := by
      rw [content, hds16]
      apply List.take_of_length_le
      rw [List.length_append, byteSeq_length, hmd5, hds16]
      omega
    simp only [RCF.read]
    rw [if_pos (by norm_num : (-1 : Int) < 0)]
    simp only [h1, h4, Nat.cast_zero, sub_zero]
    rw [hpay, hcontent]
    rw [htrail1]
  · -- size ≤ 16: the whole stream is a prefix of the digest trailer
    have hpay : readPayload rng s ((size : Int)) = ([], (size : Int), s) := by
      rw [readPayload]
      simp only [h1, h4, Nat.cast_zero, sub_zero]
      have hmin : ((size : Int)) ⊓ ((size : Int) - (digestSize : Int)) = (size : Int) - 16 := by
        rw [show ((digestSize : Int)) = 16 from rfl]
        omega
      rw [hmin, if_neg (by omega : ¬ (0 : Int) < (size : Int) - 16)]
    have htrail1 : (readTrailer md5 s ((size : Int))).1 = (md5 []).take size := by
      rw [readTrailer]
      simp only [h1, h4, h6, h8, Nat.cast_zero, sub_zero]
      have hmin2 : ((size : Int)) ⊓ ((size : Int)) = (size : Int) := by omega
      rw [hmin2]
      by_cases hpos : 0 < size
      · rw [if_pos (by omega : (0 : Int) < (size : Int))]
        simp only []
        congr 1
      · have hz : size = 0 := by omega
        subst hz
        rw [if_neg (by omega)]
        simp
    have hcontent : content rng md5 seed size = (md5 []).take size := by
      rw [content]
      have h0 : size - digestSize = 0 := by omega
      rw [h0, byteSeq_zero]
      simp
    simp only [RCF.read]
    rw [if_pos (by norm_num : (-1 : Int) < 0)]
    simp only [h1, h4, Nat.cast_zero, sub_zero]
    rw [hpay, hcontent]
    rw [htrail1]
    simp

theorem read_core (s t : RCF) (h : s.core = t.core) (n : Int) (t1 t2 : Nat) :
    (RCF.read rng md5 s n t1).1 = (RCF.read rng md5 t n t2).1 ∧
    (RCF.read rng md5 s n t1).2.core = (RCF.read rng md5 t n t2).2.core := by
  obtain ⟨sz, sd, cnt, off, bf, hb, ha, dg, lc, ls, ch⟩ := s
  obtain ⟨sz', sd', cnt', off', bf', hb', ha', dg', lc', ls', ch'⟩ := t
  simp only [RCF.core, Prod.mk.injEq] at h
  obtain ⟨e1, e2, e3, e4, e5, e6, e7, e8⟩ := h
  subst e1; subst e2; subst e3; subst e4; subst e5; subst e6; subst e7; subst e8
  cases dg <;> (simp only [RCF.read, readPayload, readTrailer]; split_ifs <;> simp [RCF.core])

theorem runReads_core : ∀ (cs1 cs2 : List (Int × Nat)) (s t : RCF),
    s.core = t.core → cs1.map Prod.fst = cs2.map Prod.fst →
    (runReads rng md5 s cs1).1 = (runReads rng md5 t cs2).1
  | [], [], s, t, _, _ => rfl
  | [], c :: cs, s, t, _, hm => by simp at hm
  | c :: cs, [], s, t, _, hm => by simp at hm
  | c1 :: cs1, c2 :: cs2, s, t, hcore, hm => by
    simp only [List.map_cons, List.cons.injEq] at hm
    obtain ⟨hfst, hrest⟩ := hm
    have hr := read_core rng md5 s t hcore c2.1 c1.2 c2.2
    have ih := runReads_core cs1 cs2 (RCF.read rng md5 s c2.1 c1.2).2
      (RCF.read rng md5 t c2.1 c2.2).2 hr.2 hrest
    simp only [runReads]
    rw [hfst]
    exact congrArg₂ (· ++ ·) hr.1 ih

theorem write_split (v : FV) (d : List Nat) (t : Nat) :
    (v.write d t).hashedBytes ++ (v.write d t).buf = v.hashedBytes ++ (v.buf ++ d) ∧
    (v.write d t).buf.length = min digestSize (v.buf ++ d).length ∧
    (v.write d t).size = v.size + d.length := by
  simp only [FV.write]
  refine ⟨?_, ?_, trivial⟩
  · rw [List.append_assoc, List.take_append_drop]
  · rw [List.length_drop]
    have hds : digestSize = 16 := rfl
    omega

theorem runWrites_spec : ∀ (ws : List (List Nat × Nat)) (v : FV) (W : List Nat),
    v.hashedBytes ++ v.buf = W → v.buf.length = min digestSize W.length →
    v.size = W.length →
    (runWrites v ws).hashedBytes ++ (runWrites v ws).buf
        = W ++ (ws.map Prod.fst).flatten ∧
    (runWrites v ws).buf.length
        = min digestSize (W ++ (ws.map Prod.fst).flatten).length ∧
    (runWrites v ws).size = (W ++ (ws.map Prod.fst).flatten).length
  | [], v, W, h1, h2, h3 => by
    simp only [runWrites, List.map_nil, List.flatten_nil, List.append_nil]
    exact ⟨h1, h2, h3⟩
  | w :: ws, v, W, h1, h2, h3 => by
    obtain ⟨a1, a2, a3⟩ := write_split v w.1 w.2
    have hh1 : (v.write w.1 w.2).hashedBytes ++ (v.write w.1 w.2).buf = W ++ w.1 := by
      rw [a1, ← List.append_assoc, h1]
    have hh2 : (v.write w.1 w.2).buf.length = min digestSize (W ++ w.1).length := by
      rw [a2]
      simp only [List.length_append]
      have hb : v.buf.length = min digestSize W.length := h2
      have hds : digestSize = 16 := rfl
      omega
    have hh3 : (v.write w.1 w.2).size = (W ++ w.1).length := by
      rw [a3, h3, List.length_append]
    obtain ⟨b1, b2, b3⟩ := runWrites_spec ws (v.write w.1 w.2) (W ++ w.1) hh1 hh2 hh3
    simp only [runWrites, List.map_cons, List.flatten_cons]
    refine ⟨?_, ?_, ?_⟩
    · rw [b1, List.append_assoc]
    · rw [b2]
      simp [List.length_append]
    · rw [b3]
      simp [List.length_append]

theorem content_big (hmd5 : ∀ l, (md5 l).length = digestSize)
    (size seed : Nat) (h : digestSize ≤ size) :
    content rng md5 seed size
      = byteSeq rng seed (size - digestSize) ++ md5 (byteSeq rng seed (size - digestSize)) := by
  rw [content]
  apply List.take_of_length_le
  rw [List.length_append, byteSeq_length, hmd5]
  have hds : digestSize = 16 := rfl
  omega

theorem content_small (size seed : Nat) (h : size ≤ digestSize) :
    content rng md5 seed size = (md5 []).take size := by
  rw [content]
  have hds : digestSize = 16 := rfl
  have h0 : size - digestSize = 0 := by omega
  rw [h0, byteSeq_zero]
  simp

theorem read_fields (s : RCF) (n : Int) (t : Nat) :
    (RCF.read rng md5 s n t).2.size = s.size ∧ (RCF.read rng md5 s n t).2.seed = s.seed := by
  obtain ⟨sz, sd, cnt, off, bf, hb, ha, dg, lc, ls, ch⟩ := s
  cases dg <;> (simp only [RCF.read, readPayload, readTrailer]; split_ifs <;> simp)

end Lemmas

section Claims

variable (rng : Nat → Nat → Nat) (md5 : List Nat → List Nat)

/-- C1: for every `size ≥ 16` and every seed, constructing a
`RandomContentFile(size, seed)`, reading the entire stream with a single
`read(-1)`, and writing those bytes into a fresh `FileVerifier` yields
`valid() == true`.  Quantified over every deterministic generator `rng` and
every digest function `md5` with 16-byte digests (MD5 being one such). -/
theorem claim1_full_stream_verifies (hmd5 : ∀ l, (md5 l).length = digestSize)
    (size seed : Nat) (hsize : digestSize ≤ size) (t0 t1 t2 t3 : Nat) :
    (FV.valid md5 (FV.write (FV.init t2)
        ((RCF.read rng md5 (RCF.init size seed t0) (-1) t1).1) t3)).1 = true := by
  have hbytes := read_all_spec rng md5 hmd5 size seed t1 (RCF.init size seed t0)
    rfl rfl rfl rfl rfl rfl rfl rfl
  rw [hbytes, content_big rng md5 hmd5 size seed hsize]
  have hds : digestSize = 16 := rfl
  have hlP : (byteSeq rng seed (size - digestSize)).length = size - digestSize :=
    byteSeq_length rng seed _
  have hlD : (md5 (byteSeq rng seed (size - digestSize))).length = digestSize := hmd5 _
  simp only [FV.valid, FV.write, FV.init, List.nil_append]
  have hlb : (byteSeq rng seed (size - digestSize) ++ md5 (byteSeq rng seed (size - digestSize))).length = size := by
    rw [List.length_append, hlP, hlD]; omega
  have hsplit : (byteSeq rng seed (size - digestSize) ++ md5 (byteSeq rng seed (size - digestSize))).length - digestSize
      = (byteSeq rng seed (size - digestSize)).length := by omega
  rw [if_neg (by omega : ¬ 0 + (byteSeq rng seed (size - digestSize) ++ md5 (byteSeq rng seed (size - digestSize))).length < digestSize)]
  rw [hsplit, List.take_left, List.drop_left]
  simp

/-- C2: for every `size ≥ 16` and every seed, the full stream of a
`RandomContentFile(size, seed)` is exactly `size - 16` pseudorandom payload
bytes — the prefix `byteSeq` of the seed-determined byte sequence — followed
verbatim by the 16-byte digest of those payload bytes. -/
theorem claim2_stream_layout (hmd5 : ∀ l, (md5 l).length = digestSize)
    (size seed : Nat) (hsize : digestSize ≤ size) (t0 t1 : Nat) :
    (RCF.read rng md5 (RCF.init size seed t0) (-1) t1).1
        = byteSeq rng seed (size - digestSize) ++ md5 (byteSeq rng seed (size - digestSize)) ∧
    (byteSeq rng seed (size - digestSize)).length = size - digestSize ∧
    (md5 (byteSeq rng seed (size - digestSize))).length = digestSize := by
  refine ⟨?_, byteSeq_length rng seed _, hmd5 _⟩
  rw [read_all_spec rng md5 hmd5 size seed t1 (RCF.init size seed t0) rfl rfl rfl rfl rfl rfl rfl rfl,
      content_big rng md5 hmd5 size seed hsize]

/-- C4: two independently constructed `RandomContentFile(size, seed)`
instances, driven by the same sequence of requested read sizes but at
arbitrary (possibly different) wall-clock instants, produce byte-identical
output: the emitted bytes are a function of size, seed and the read sizes
only. -/
theorem claim4_two_run_determinism (size seed t0 t1 : Nat) (cs1 cs2 : List (Int × Nat))
    (h : cs1.map Prod.fst = cs2.map Prod.fst) :
    (runReads rng md5 (RCF.init size seed t0) cs1).1
      = (runReads rng md5 (RCF.init size seed t1) cs2).1 :=
  runReads_core rng md5 cs1 cs2 (RCF.init size seed t0) (RCF.init size seed t1) rfl h

/-- C5: after fully reading a `RandomContentFile(size, seed)` with
`read(-1)`, calling `seek(0)` succeeds and fully re-reading reproduces exactly
the first read byte sequence; moreover the post-seek state has the generator
reset for the original seed, an empty leftover buffer, a re-initialized digest
accumulator, the previous `chunks` rotated into `last_chunks`, the chunk clock
reset to the seek instant, and empty `chunks`. -/
theorem claim5_seek_zero_rereads (hmd5 : ∀ l, (md5 l).length = digestSize)
    (size seed t0 t1 t2 t3 : Nat) :
    ∃ s2, RCF.seek ((RCF.read rng md5 (RCF.init size seed t0) (-1) t1).2) 0 t2 = some s2 ∧
      (RCF.read rng md5 s2 (-1) t3).1 = (RCF.read rng md5 (RCF.init size seed t0) (-1) t1).1 ∧
      s2.seed = seed ∧ s2.rngCnt = 0 ∧ s2.offset = 0 ∧ s2.buffer = [] ∧
      s2.hashedBytes = [] ∧ s2.hashAlive = true ∧ s2.digest = none ∧
      s2.lastChunks = some ((RCF.read rng md5 (RCF.init size seed t0) (-1) t1).2.chunks) ∧
      s2.lastSeek = t2 ∧ s2.chunks = [] := by
  have hsz := (read_fields rng md5 (RCF.init size seed t0) (-1) t1).1
  have hsd := (read_fields rng md5 (RCF.init size seed t0) (-1) t1).2
  refine ⟨{ (RCF.read rng md5 (RCF.init size seed t0) (-1) t1).2 with
            rngCnt := 0, offset := 0, buffer := [], hashedBytes := [],
            hashAlive := true, digest := none,
            lastChunks := some ((RCF.read rng md5 (RCF.init size seed t0) (-1) t1).2.chunks),
            lastSeek := t2, chunks := [] }, ?_, ?_, hsd, rfl, rfl, rfl, rfl, rfl, rfl, rfl, rfl, rfl⟩
  · simp [RCF.seek]
  · exact (read_all_spec rng md5 hmd5 size seed t3
      { (RCF.read rng md5 (RCF.init size seed t0) (-1) t1).2 with
        rngCnt := 0, offset := 0, buffer := [], hashedBytes := [],
        hashAlive := true, digest := none,
        lastChunks := some ((RCF.read rng md5 (RCF.init size seed t0) (-1) t1).2.chunks),
        lastSeek := t2, chunks := [] } hsz hsd rfl rfl rfl rfl rfl rfl).trans
      (read_all_spec rng md5 hmd5 size seed t1 (RCF.init size seed t0)
        rfl rfl rfl rfl rfl rfl rfl rfl).symm

/-- C3, failing-input evaluation: reading a `RandomContentFile(17, 0)` one
byte at a time does NOT reproduce the stream of a single `read(-1)` on a
fresh instance (evaluated with the concrete stand-ins `rngC`/`mdC`): every
single-byte read inside the 16-byte trailer returns `digest[:1]`, i.e. digest
byte 0 again, because `read` slices `self.digest[:digest_count]` from the
start of the digest instead of from the current position inside the trailer.
The second conjunct records that the single full read does produce the
intended `content` stream. -/
theorem claim3_chunked_trailer_read_diverges :
    (runReads rngC mdC (RCF.init 17 0 0) (List.replicate 17 ((1 : Int), 0))).1
        ≠ (RCF.read rngC mdC (RCF.init 17 0 0) (-1) 0).1 ∧
    (RCF.read rngC mdC (RCF.init 17 0 0) (-1) 0).1 = content rngC mdC 0 17 := by
  constructor
  · decide
  · decide

/-- C6: after any sequence of `write(data)` calls on a fresh `FileVerifier`,
the bytes fed into the running digest concatenated with the trailing buffer
equal all bytes written so far, and the trailing buffer holds at most 16
bytes.  Quantifying over all write sequences covers the state after every
individual write, including single-byte writes. -/
theorem claim6_verifier_invariant (ws : List (List Nat × Nat)) (t0 : Nat) :
    (runWrites (FV.init t0) ws).hashedBytes ++ (runWrites (FV.init t0) ws).buf
        = (ws.map Prod.fst).flatten ∧
    (runWrites (FV.init t0) ws).buf.length ≤ digestSize := by
  obtain ⟨b1, b2, b3⟩ := runWrites_spec ws (FV.init t0) [] rfl (by simp [FV.init]) rfl
  rw [List.nil_append] at b1 b2
  exact ⟨b1, by omega⟩

/-- C7: `valid()` returns true iff (for fewer than 16 bytes written) the
digest of the payload-so-far starts with the trailing buffer, and otherwise
iff the trailing buffer equals the digest; for a correct stream of declared
`size < 16` — a prefix of `content` — `valid()` is true after any write
sequence delivering such a prefix, and a fresh `FileVerifier` with no writes
reports `valid() == true`. -/
theorem claim7_valid_semantics :
    (∀ v : FV,
      (v.size < digestSize → ((FV.valid md5 v).1 = true ↔ v.buf <+: md5 v.hashedBytes)) ∧
      (digestSize ≤ v.size → ((FV.valid md5 v).1 = true ↔ v.buf = md5 v.hashedBytes))) ∧
    (∀ size seed t0, size < digestSize → ∀ ws : List (List Nat × Nat),
      (ws.map Prod.fst).flatten <+: content rng md5 seed size →
      (FV.valid md5 (runWrites (FV.init t0) ws)).1 = true) ∧
    (∀ t0, (FV.valid md5 (FV.init t0)).1 = true) := by
  refine ⟨?_, ?_, ?_⟩
  · intro v
    constructor
    · intro h
      simp only [FV.valid, if_pos h]
      exact List.isPrefixOf_iff_prefix
    · intro h
      simp only [FV.valid, if_neg (by omega : ¬ v.size < digestSize)]
      exact beq_iff_eq
  · intro size seed t0 hsz ws hpre
    obtain ⟨b1, b2, b3⟩ := runWrites_spec ws (FV.init t0) [] rfl (by simp [FV.init]) rfl
    rw [List.nil_append] at b1 b2 b3
    have hFlen : (ws.map Prod.fst).flatten.length ≤ size := by
      have h1 := hpre.length_le
      have h2 : (content rng md5 seed size).length ≤ size := by
        rw [content]
        simp [List.length_take]
      omega
    have hds : digestSize = 16 := rfl
    have hbuflen : (runWrites (FV.init t0) ws).buf.length = (ws.map Prod.fst).flatten.length := by
      omega
    have hhashed : (runWrites (FV.init t0) ws).hashedBytes = [] := by
      have := congrArg List.length b1
      rw [List.length_append] at this
      have h0 : (runWrites (FV.init t0) ws).hashedBytes.length = 0 := by omega
      exact List.eq_nil_of_length_eq_zero h0
    have hbuf : (runWrites (FV.init t0) ws).buf = (ws.map Prod.fst).flatten := by
      rw [hhashed, List.nil_append] at b1
      exact b1
    simp only [FV.valid, b3, if_pos (by omega : (ws.map Prod.fst).flatten.length < digestSize)]
    rw [ List.isPrefixOf_iff_prefix, hbuf, hhashed]
    calc (ws.map Prod.fst).flatten <+: content rng md5 seed size := hpre
      _ <+: md5 [] := by
        rw [content_small rng md5 size seed (by omega)]
        exact List.take_prefix size (md5 [])
  · intro t0
    simp only [FV.valid, FV.init]
    rw [if_pos (by decide : (0 : Nat) < digestSize)]
    exact List.isPrefixOf_iff_prefix.mpr List.nil_prefix

/-- C8: on a `RandomContentFile`, `seek(offset)` with any `offset ≠ 0` fails
the `assert offset == 0` (assertion-style fatal error, never silently
clamped), and `seek(0)` is the only target that succeeds, returning the reset
state. -/
theorem claim8_seek_contract (s : RCF) (off : Int) (now : Nat) :
    (off ≠ 0 → RCF.seek s off now = none) ∧
    RCF.seek s 0 now = some { s with rngCnt := 0, offset := 0, buffer := [],
                                     hashedBytes := [], hashAlive := true, digest := none,
                                     lastChunks := some s.chunks, lastSeek := now, chunks := [] } := by
  constructor
  · intro h
    simp [RCF.seek, h]
  · simp [RCF.seek]

/-- C9: on a `PrecomputedContentFile`, `seek(offset)` with `offset ≠ 0`
repositions only the read cursor — the resulting state is the old one with
just `filePos` replaced, so `chunks`, `last_chunks` and the chunk clock are
untouched — while `seek(0)` rotates `chunks` into `last_chunks`, resets the
clock and empties `chunks`. -/
theorem claim9_pcf_seek_frame (p : PCF) (off now : Nat) :
    (off ≠ 0 → PCF.seek p off now = { p with filePos := off }) ∧
    PCF.seek p 0 now = { p with filePos := 0, lastChunks := some p.chunks,
                                lastSeek := now, chunks := [] } := by
  constructor
  · intro h
    simp [PCF.seek, h]
  · simp [PCF.seek]

/-- C10: `FileVerifier.valid()` leaves the verifier state entirely unchanged
(it snapshots the running digest without sealing it, as the hashlib digest
call is non-destructive), so interleaved `valid()` calls do not alter the
results of subsequent `write()` or `valid()` calls. -/
theorem claim10_valid_pure (v : FV) (d : List Nat) (t : Nat) :
    (FV.valid md5 v).2 = v ∧
    FV.write (FV.valid md5 v).2 d t = FV.write v d t ∧
    FV.valid md5 (FV.valid md5 v).2 = FV.valid md5 v :=
  ⟨rfl, rfl, rfl⟩

end Claims

theorem mdC_len : ∀ l, (mdC l).length = digestSize := by
  intro l
  simp [mdC, digestSize]

/-- Witness for C1 at size 17, seed 5, with the concrete stand-ins. -/
theorem claim1_witness :
    (FV.valid mdC (FV.write (FV.init 0)
        ((RCF.read rngC mdC (RCF.init 17 5 0) (-1) 0).1) 0)).1 = true :=
  claim1_full_stream_verifies rngC mdC mdC_len 17 5 (by decide) 0 0 0 0

/-- Witness for C2 at size 17, seed 5, with the concrete stand-ins. -/
theorem claim2_witness :
    (RCF.read rngC mdC (RCF.init 17 5 0) (-1) 0).1
        = byteSeq rngC 5 (17 - digestSize) ++ mdC (byteSeq rngC 5 (17 - digestSize)) ∧
    (byteSeq rngC 5 (17 - digestSize)).length = 17 - digestSize ∧
    (mdC (byteSeq rngC 5 (17 - digestSize))).length = digestSize :=
  claim2_stream_layout rngC mdC mdC_len 17 5 (by decide) 0 0

/-- Witness for C4: the same single full read at two different instants. -/
theorem claim4_witness :
    (runReads rngC mdC (RCF.init 17 5 0) [((-1 : Int), 3)]).1
      = (runReads rngC mdC (RCF.init 17 5 99) [((-1 : Int), 7)]).1 :=
  claim4_two_run_determinism rngC mdC 17 5 0 99 [((-1 : Int), 3)] [((-1 : Int), 7)] rfl

/-- Witness for C5 at size 17, seed 5, with the concrete stand-ins. -/
theorem claim5_witness :
    ∃ s2, RCF.seek ((RCF.read rngC mdC (RCF.init 17 5 0) (-1) 1).2) 0 2 = some s2 ∧
      (RCF.read rngC mdC s2 (-1) 3).1 = (RCF.read rngC mdC (RCF.init 17 5 0) (-1) 1).1 ∧
      s2.seed = 5 ∧ s2.rngCnt = 0 ∧ s2.offset = 0 ∧ s2.buffer = [] ∧
      s2.hashedBytes = [] ∧ s2.hashAlive = true ∧ s2.digest = none ∧
      s2.lastChunks = some ((RCF.read rngC mdC (RCF.init 17 5 0) (-1) 1).2.chunks) ∧
      s2.lastSeek = 2 ∧ s2.chunks = [] :=
  claim5_seek_zero_rereads rngC mdC mdC_len 17 5 0 1 2 3

/-- Witness for C7: a fresh verifier reports valid. -/
theorem claim7_witness :
    (FV.valid mdC (FV.init 0)).1 = true :=
  (claim7_valid_semantics rngC mdC).2.2 0

/-- Witness for C8: seeking a concrete file to offset 3 fails. -/
theorem claim8_witness :
    RCF.seek (RCF.init 5 1 0) 3 0 = none :=
  (claim8_seek_contract (RCF.init 5 1 0) 3 0).1 (by decide)

/-- Witness for C9: a non-zero seek only moves the cursor. -/
theorem claim9_witness :
    PCF.seek (PCF.init [1, 2, 3] 0) 2 7 = { PCF.init [1, 2, 3] 0 with filePos := 2 } :=
  (claim9_pcf_seek_frame (PCF.init [1, 2, 3] 0) 2 7).1 (by decide)

end Realistic
